import Mathlib

/-!
Shallow embedding of the v-network verification platform: the Express
backend (backend/server.js) and the client upload widget (tasks.js).
Timestamps are natural numbers, the record store is a pair of in-memory
lists, and the unique indexes declared in the mongoose schemas are
modelled as duplicate-key failures on save.  Nondeterministic inputs
(current time, random draws) are explicit parameters of the operations.
-/

namespace VNetwork

/-- The status enum of the verification schema (pending, verified, rejected). -/
inductive Status
  | pending
  | verified
  | rejected
  deriving DecidableEq, Repr

/-- A multipart file as seen by the multer middleware: declared MIME type,
lower-cased extension of the original file name, and size in bytes. -/
structure UploadedFile where
  mimetype : String
  extname : String
  size : Nat
  deriving DecidableEq, Repr

/-- One record of the Verification collection. -/
structure Verification where
  verificationId : String
  userAddress : String
  task : String
  screenshotPath : String
  status : Status
  reviewedBy : Option String
  reviewNotes : Option String
  submittedAt : Nat
  reviewedAt : Option Nat
  deriving DecidableEq, Repr

/-- One record of the User collection.  The five tasksCompleted booleans of
the schema are a function from task names, meaningful on the five
enumerated task keys. -/
structure User where
  userAddress : String
  referralCode : Option String
  isActive : Bool
  registrationDate : Nat
  tasksCompleted : String → Bool
  dailyClaims : List (Nat × Nat)

/-- The record store: both collections. -/
structure DB where
  verifications : List Verification
  users : List User

/-- The empty store. -/
def emptyDB : DB := { verifications := [], users := [] }

/-- The five task keys declared in the tasksCompleted object of the
userSchema. -/
def enumTasks : List String :=
  ["twitter", "facebook", "instagram", "youtube", "telegram"]

/-- Strict-mode update of the schema path tasksCompleted.<task>: a path
outside the schema is silently dropped by mongoose. -/
def setTask (tc : String → Bool) (task : String) (b : Bool) (t : String) : Bool :=
  if enumTasks.contains task then (if t == task then b else tc t) else tc t

/-- Every tasksCompleted boolean defaults to false in the userSchema. -/
def defaultTasks : String → Bool := fun _ => false

/-- Unanchored substring test, as performed by a JS regexp test with a
literal pattern. -/
def containsSub (s pat : String) : Bool :=
  (List.range (s.data.length + 1)).any fun i => pat.data.isPrefixOf (s.data.drop i)

/-- The regexp jpeg|jpg|png|gif of the multer fileFilter, applied with
test, an unanchored substring search. -/
def filetypesTest (s : String) : Bool :=
  containsSub s "jpeg" || containsSub s "jpg" ||
    containsSub s "png" || containsSub s "gif"

/-- multer fileFilter: both the declared MIME type and the lower-cased
extension must match the pattern. -/
def fileFilterAccepts (f : UploadedFile) : Bool :=
  filetypesTest f.mimetype && filetypesTest f.extname

/-- multer acceptance: the fileFilter plus the 5 MB fileSize limit. -/
def multerAccepts (f : UploadedFile) : Bool :=
  fileFilterAccepts f && decide (f.size ≤ 5 * 1024 * 1024)

/-- The path assigned by the multer disk storage engine:
uploads/ timestamp - random draw, original extension preserved. -/
def storedPath (now rand : Nat) (ext : String) : String :=
  "uploads/" ++ toString now ++ "-" ++ toString rand ++ ext

/-- The verification id generated on submission: the VER tag, the current
time, and a random base36 suffix. -/
def freshVerificationId (now : Nat) (randSuffix : String) : String :=
  "VER" ++ toString now ++ randSuffix

/-- Outcome of POST /api/submit-verification.  A multer rejection reaches
the client through the default error handler; a save rejected by the
unique index on verificationId is caught and reported as a server error. -/
inductive SubmitResult
  | uploadError
  | noFile
  | duplicateId
  | submitted (verificationId : String)
  deriving DecidableEq, Repr

/-- findOne on the Verification collection by verificationId. -/
def findVerification (db : DB) (id : String) : Option Verification :=
  db.verifications.find? fun v => v.verificationId == id

/-- findOne on the User collection by userAddress. -/
def findUser (db : DB) (addr : String) : Option User :=
  db.users.find? fun u => u.userAddress == addr

/-- findOneAndUpdate with upsert, as performed by the submit handler: set
tasksCompleted.<task> to false, creating the user with schema defaults
when absent. -/
def upsertUserTaskFalse (users : List User) (addr task : String) (now : Nat) :
    List User :=
  if users.any (fun u => u.userAddress == addr) then
    users.map fun u =>
      if u.userAddress == addr then
        { u with tasksCompleted := setTask u.tasksCompleted task false }
      else u
  else
    users ++ [{ userAddress := addr, referralCode := none, isActive := false,
                registrationDate := now,
                tasksCompleted := setTask defaultTasks task false,
                dailyClaims := [] }]

/-- The Verification record created by the submit handler: status starts
pending, submittedAt defaults to the current time, reviewedAt is unset. -/
def newVerification (id userAddress task : String) (f : UploadedFile)
    (now rand : Nat) : Verification :=
  { verificationId := id, userAddress := userAddress, task := task,
    screenshotPath := storedPath now rand f.extname,
    status := Status.pending, reviewedBy := none, reviewNotes := none,
    submittedAt := now, reviewedAt := none }

/-- POST /api/submit-verification.  The parameters now, rand and
randSuffix are the current time and the random draws of the storage
engine and of the id generator. -/
def submitVerification (db : DB) (task userAddress : String)
    (upload : Option UploadedFile) (now rand : Nat) (randSuffix : String) :
    SubmitResult × DB :=
  match upload with
  | none => (SubmitResult.noFile, db)
  | some f =>
    if multerAccepts f then
      let id := freshVerificationId now randSuffix
      if db.verifications.any (fun v => v.verificationId == id) then
        (SubmitResult.duplicateId, db)
      else
        (SubmitResult.submitted id,
          { verifications :=
              db.verifications ++ [newVerification id userAddress task f now rand],
            users := upsertUserTaskFalse db.users userAddress task now })
    else (SubmitResult.uploadError, db)

/-- Insert an element into a list sorted by the boolean relation le. -/
def insertLe {α : Type _} (le : α → α → Bool) (a : α) : List α → List α
  | [] => [a]
  | b :: l => if le a b then a :: b :: l else b :: insertLe le a l

/-- Stable insertion sort by the boolean relation le; models the sort
applied by the record store on a query. -/
def sortBy {α : Type _} (le : α → α → Bool) : List α → List α
  | [] => []
  | a :: l => insertLe le a (sortBy le l)

/-- One step of the statusMap loop of the status handler: keep, per task,
the verification seen so far with the strictly largest submittedAt. -/
def upsertTask (m : List (String × Verification)) (v : Verification) :
    List (String × Verification) :=
  match m.find? (fun p => p.1 == v.task) with
  | none => m ++ [(v.task, v)]
  | some p =>
    if p.2.submittedAt < v.submittedAt then
      m.map fun q => if q.1 == v.task then (v.task, v) else q
    else m

/-- The find plus descending sort on submittedAt performed by the status
handler. -/
def userVerificationsSorted (db : DB) (addr : String) : List Verification :=
  sortBy (fun a b => Nat.ble b.submittedAt a.submittedAt)
    (db.verifications.filter fun v => v.userAddress == addr)

/-- GET /api/verification-status/:userAddress — find the verifications of
the user, sort by submittedAt descending, fold them into the statusMap,
and project each kept verification to its status. -/
def getVerificationStatus (db : DB) (addr : String) : List (String × Status) :=
  ((userVerificationsSorted db addr).foldl upsertTask []).map fun p => (p.1, p.2.status)

/-- Lookup of a task in the returned status object. -/
def lookupTask (m : List (String × Status)) (t : String) : Option Status :=
  (m.find? fun p => p.1 == t).map fun p => p.2

/-- GET /api/admin/pending-verifications — the pending verifications,
sorted by submittedAt ascending. -/
def getPendingVerifications (db : DB) : List Verification :=
  sortBy (fun a b => Nat.ble a.submittedAt b.submittedAt)
    (db.verifications.filter fun v => v.status == Status.pending)

/-- Outcome of POST /api/admin/update-verification. -/
inductive ReviewResult
  | notFound
  | updated
  deriving DecidableEq, Repr

/-- The overwrite performed by the review handler on the found record:
status, notes, reviewer, and reviewedAt set to the current time. -/
def reviewedRecord (v : Verification) (newStatus : Status)
    (reviewNotes reviewedBy : String) (now : Nat) : Verification :=
  { v with status := newStatus, reviewNotes := some reviewNotes,
           reviewedBy := some reviewedBy, reviewedAt := some now }

/-- POST /api/admin/update-verification — find the record by id, overwrite
status, notes, reviewer and review time, and on a verified status set the
tasksCompleted flag of the record owner (no upsert: a missing user is
left missing). -/
def updateVerification (db : DB) (id : String) (newStatus : Status)
    (reviewNotes reviewedBy : String) (now : Nat) : ReviewResult × DB :=
  match findVerification db id with
  | none => (ReviewResult.notFound, db)
  | some v =>
    let v2 := reviewedRecord v newStatus reviewNotes reviewedBy now
    let verifications2 :=
      db.verifications.map fun w => if w.verificationId == id then v2 else w
    let users2 :=
      if newStatus = Status.verified then
        db.users.map fun u =>
          if u.userAddress == v.userAddress then
            { u with tasksCompleted := setTask u.tasksCompleted v.task true }
          else u
      else db.users
    (ReviewResult.updated, { verifications := verifications2, users := users2 })

/-- Outcome of POST /api/track-registration.  A save rejected by the
unique index on userAddress is caught and reported as a server error. -/
inductive RegisterResult
  | duplicateUser
  | registered
  deriving DecidableEq, Repr

/-- The User record saved by the registration handler: isActive true,
schema defaults for the remaining fields. -/
def newUserRecord (addr : String) (referralCode : Option String) (now : Nat) : User :=
  { userAddress := addr, referralCode := referralCode, isActive := true,
    registrationDate := now, tasksCompleted := defaultTasks, dailyClaims := [] }

/-- POST /api/track-registration — save a new User with isActive true and
schema defaults for the remaining fields. -/
def trackRegistration (db : DB) (addr : String) (referralCode : Option String)
    (now : Nat) : RegisterResult × DB :=
  if db.users.any (fun u => u.userAddress == addr) then
    (RegisterResult.duplicateUser, db)
  else
    (RegisterResult.registered,
      { db with users := db.users ++ [newUserRecord addr referralCode now] })

/-- HTTP status of a submit outcome.  A multer rejection carries no status
of its own and is answered by the default express error handler with 500;
the handler answers 400 for a missing file, and the catch block maps a
save failure to 500. -/
def submitHttpStatus : SubmitResult → Nat
  | SubmitResult.uploadError => 500
  | SubmitResult.noFile => 400
  | SubmitResult.duplicateId => 500
  | SubmitResult.submitted _ => 200

/-- HTTP status of a review outcome. -/
def reviewHttpStatus : ReviewResult → Nat
  | ReviewResult.notFound => 404
  | ReviewResult.updated => 200

/-- HTTP status of a registration outcome. -/
def registerHttpStatus : RegisterResult → Nat
  | RegisterResult.duplicateUser => 500
  | RegisterResult.registered => 200

/-- A file as seen by the client widget: MIME type and size. -/
structure ClientFile where
  type : String
  size : Nat
  deriving DecidableEq, Repr

/-- Visible state of the upload widget: preview container shown, submit
button enabled. -/
structure WidgetState where
  previewShown : Bool
  submitEnabled : Bool
  deriving DecidableEq, Repr

/-- resetUploadArea of tasks.js: hide the preview, disable submission. -/
def resetUploadArea : WidgetState :=
  { previewShown := false, submitEnabled := false }

/-- handleFiles of tasks.js: an empty selection is ignored; a type failing
the unanchored image regexp, or a file above 5 MB, raises an error dialog
and leaves the widget untouched; otherwise the preview is shown and the
submit button enabled. -/
def handleFiles (s : WidgetState) (files : List ClientFile) :
    Option String × WidgetState :=
  match files with
  | [] => (none, s)
  | f :: _ =>
    if containsSub f.type "image" = false then
      (some "Please upload an image file (JPG, PNG, GIF)", s)
    else if 5 * 1024 * 1024 < f.size then
      (some "Maximum file size is 5MB", s)
    else
      (none, { previewShown := true, submitEnabled := true })

/-- One server operation with all its nondeterministic inputs. -/
inductive Op
  | submit (task userAddress : String) (upload : Option UploadedFile)
      (now rand : Nat) (randSuffix : String)
  | review (verificationId : String) (newStatus : Status)
      (reviewNotes reviewedBy : String) (now : Nat)
  | register (userAddress : String) (referralCode : Option String) (now : Nat)

/-- State reached after one operation. -/
def applyOp (db : DB) : Op → DB
  | Op.submit t a up now rand suf => (submitVerification db t a up now rand suf).2
  | Op.review id st notes rBy now => (updateVerification db id st notes rBy now).2
  | Op.register a rc now => (trackRegistration db a rc now).2

/-- States reachable from the empty store by the specified operations;
a review carries a status in the verified-or-rejected domain of the
Review operation. -/
inductive Reachable : DB → Prop
  | init : Reachable emptyDB
  | submit (db : DB) (t a : String) (up : Option UploadedFile)
      (now rand : Nat) (suf : String) : Reachable db →
      Reachable (applyOp db (Op.submit t a up now rand suf))
  | review (db : DB) (id : String) (st : Status) (notes rBy : String)
      (now : Nat) : st ≠ Status.pending → Reachable db →
      Reachable (applyOp db (Op.review id st notes rBy now))
  | register (db : DB) (a : String) (rc : Option String) (now : Nat) :
      Reachable db → Reachable (applyOp db (Op.register a rc now))

/-- The ids returned by a successful submit outcome. -/
def submitResultIds : SubmitResult → List String
  | SubmitResult.submitted id => [id]
  | _ => []

/-- The verification ids returned to the client by one operation. -/
def opReturnedIds (db : DB) : Op → List String
  | Op.submit t a up now rand suf =>
      submitResultIds (submitVerification db t a up now rand suf).1
  | _ => []

/-- All verification ids returned along the run of a list of operations. -/
def traceIds (db : DB) : List Op → List String
  | [] => []
  | op :: ops => opReturnedIds db op ++ traceIds (applyOp db op) ops

/-- The verification ids stored in the record store. -/
def idsOf (db : DB) : List String := db.verifications.map fun v => v.verificationId

/-! ### Generic list lemmas -/

theorem find?_map_keyeq {β γ : Type _} (g : β → γ) (p : β → Bool) (q : γ → Bool)
    (h : ∀ b, q (g b) = p b) :
    ∀ l : List β, (l.map g).find? q = (l.find? p).map g
  | [] => rfl
  | b :: l => by
    cases hp : p b with
    | true =>
      rw [List.map_cons, List.find?_cons_of_pos _ (by rw [h b, hp]),
        List.find?_cons_of_pos _ hp]
      rfl
    | false =>
      rw [List.map_cons, List.find?_cons_of_neg _ (by rw [h b, hp]; exact Bool.false_ne_true),
        List.find?_cons_of_neg _ (by rw [hp]; exact Bool.false_ne_true)]
      exact find?_map_keyeq g p q h l

theorem find?_map_when {α : Type _} (p : α → Bool) (g : α → α)
    (hg : ∀ a, p a = true → p (g a) = true) :
    ∀ l : List α, (l.map fun a => if p a then g a else a).find? p = (l.find? p).map g
  | [] => rfl
  | a :: l => by
    cases hp : p a with
    | true =>
      rw [List.map_cons, if_pos hp, List.find?_cons_of_pos _ (hg a hp),
        List.find?_cons_of_pos _ hp]
      rfl
    | false =>
      rw [List.map_cons, if_neg (by rw [hp]; exact Bool.false_ne_true),
        List.find?_cons_of_neg _ (by rw [hp]; exact Bool.false_ne_true),
        List.find?_cons_of_neg _ (by rw [hp]; exact Bool.false_ne_true)]
      exact find?_map_when p g hg l

theorem nodup_keys_eq {β : Type _} {m : List (String × β)}
    (h : (m.map Prod.fst).Nodup) {p q : String × β}
    (hp : p ∈ m) (hq : q ∈ m) (hk : p.1 = q.1) : p = q := by
  induction m with
  | nil => cases hp
  | cons r m ih =>
    rw [List.map_cons, List.nodup_cons] at h
    rcases List.mem_cons.mp hp with hp1 | hp1 <;>
      rcases List.mem_cons.mp hq with hq1 | hq1
    · rw [hp1, hq1]
    · exfalso
      apply h.1
      rw [← hp1, hk]
      exact List.mem_map.mpr ⟨q, hq1, rfl⟩
    · exfalso
      apply h.1
      rw [← hq1, ← hk]
      exact List.mem_map.mpr ⟨p, hp1, rfl⟩
    · exact ih h.2 hp1 hq1

/-! ### Sort lemmas -/

theorem perm_insertLe {α : Type _} (le : α → α → Bool) (a : α) :
    ∀ l : List α, (insertLe le a l).Perm (a :: l)
  | [] => List.Perm.refl _
  | b :: l => by
    unfold insertLe
    split
    · exact List.Perm.refl _
    · exact ((perm_insertLe le a l).cons b).trans (List.Perm.swap a b l)

theorem perm_sortBy {α : Type _} (le : α → α → Bool) :
    ∀ l : List α, (sortBy le l).Perm l
  | [] => List.Perm.refl _
  | a :: l =>
    (perm_insertLe le a (sortBy le l)).trans ((perm_sortBy le l).cons a)

theorem mem_sortBy {α : Type _} {le : α → α → Bool} {l : List α} {x : α} :
    x ∈ sortBy le l ↔ x ∈ l :=
  (perm_sortBy le l).mem_iff

theorem pairwise_insertLe {α : Type _} {le : α → α → Bool}
    (htrans : ∀ a b c, le a b = true → le b c = true → le a c = true)
    (htot : ∀ a b, le a b = true ∨ le b a = true) (a : α) :
    ∀ l : List α, l.Pairwise (fun x y => le x y = true) →
      (insertLe le a l).Pairwise (fun x y => le x y = true)
  | [], _ => List.pairwise_cons.mpr ⟨fun c hc => absurd hc (List.not_mem_nil c), List.Pairwise.nil⟩
  | b :: l, h => by
    rcases List.pairwise_cons.mp h with ⟨hb, hl⟩
    unfold insertLe
    split
    case isTrue hab =>
      refine List.pairwise_cons.mpr ⟨?_, h⟩
      intro c hc
      rcases List.mem_cons.mp hc with rfl | hc
      · exact hab
      · exact htrans a b c hab (hb c hc)
    case isFalse hab =>
      refine List.pairwise_cons.mpr ⟨?_, pairwise_insertLe htrans htot a l hl⟩
      intro c hc
      rcases List.mem_cons.mp ((perm_insertLe le a l).mem_iff.mp hc) with heq | hc
      · rw [heq]
        rcases htot a b with hca | hca
        · exact absurd hca hab
        · exact hca
      · exact hb c hc

theorem pairwise_sortBy {α : Type _} {le : α → α → Bool}
    (htrans : ∀ a b c, le a b = true → le b c = true → le a c = true)
    (htot : ∀ a b, le a b = true ∨ le b a = true) :
    ∀ l : List α, (sortBy le l).Pairwise (fun x y => le x y = true)
  | [] => List.Pairwise.nil
  | a :: l => pairwise_insertLe htrans htot a (sortBy le l) (pairwise_sortBy htrans htot l)

/-! ### setTask lemmas -/

theorem setTask_eq_true {tc : String → Bool} {task : String} {b : Bool} {t : String}
    (h : setTask tc task b t = true) : (t = task ∧ b = true) ∨ tc t = true := by
  unfold setTask at h
  split at h
  · by_cases ht : (t == task) = true
    · rw [if_pos ht] at h
      exact Or.inl ⟨beq_iff_eq.mp ht, h⟩
    · rw [if_neg ht] at h
      exact Or.inr h
  · exact Or.inr h

theorem setTask_self {tc : String → Bool} {task : String} {b : Bool}
    (h : enumTasks.contains task = true) : setTask tc task b task = b := by
  unfold setTask
  rw [if_pos h, if_pos (beq_self_eq_true task)]

/-! ### Equations and case lemmas for the submit handler -/

theorem submitVerification_none (db : DB) (t a : String) (now rand : Nat)
    (suf : String) :
    submitVerification db t a none now rand suf = (SubmitResult.noFile, db) := rfl

theorem submitVerification_eq_reject {db : DB} {t a : String} {f : UploadedFile}
    {now rand : Nat} {suf : String} (hm : multerAccepts f = false) :
    submitVerification db t a (some f) now rand suf = (SubmitResult.uploadError, db) := by
  simp [submitVerification, hm]

theorem submitVerification_eq_dup {db : DB} {t a : String} {f : UploadedFile}
    {now rand : Nat} {suf : String} (hm : multerAccepts f = true)
    (hd : db.verifications.any
      (fun v => v.verificationId == freshVerificationId now suf) = true) :
    submitVerification db t a (some f) now rand suf = (SubmitResult.duplicateId, db) := by
  simp [submitVerification, hm, hd]

theorem submitVerification_eq_ok {db : DB} {t a : String} {f : UploadedFile}
    {now rand : Nat} {suf : String} (hm : multerAccepts f = true)
    (hd : db.verifications.any
      (fun v => v.verificationId == freshVerificationId now suf) = false) :
    submitVerification db t a (some f) now rand suf =
      (SubmitResult.submitted (freshVerificationId now suf),
       { verifications := db.verifications ++
           [newVerification (freshVerificationId now suf) a t f now rand],
         users := upsertUserTaskFalse db.users a t now }) := by
  simp [submitVerification, hm, hd]

theorem submit_ok {db : DB} {t a : String} {up : Option UploadedFile}
    {now rand : Nat} {suf id : String}
    (h : (submitVerification db t a up now rand suf).1 = SubmitResult.submitted id) :
    id = freshVerificationId now suf ∧
    (∀ w ∈ db.verifications, w.verificationId ≠ id) ∧
    ∃ f, up = some f ∧
      (submitVerification db t a up now rand suf).2 =
        { verifications := db.verifications ++ [newVerification id a t f now rand],
          users := upsertUserTaskFalse db.users a t now } := by
  cases up with
  | none => rw [submitVerification_none] at h; simp at h
  | some f =>
    cases hm : multerAccepts f with
    | false => rw [submitVerification_eq_reject hm] at h; simp at h
    | true =>
      cases hd : db.verifications.any
          (fun v => v.verificationId == freshVerificationId now suf) with
      | true => rw [submitVerification_eq_dup hm hd] at h; simp at h
      | false =>
        rw [submitVerification_eq_ok hm hd] at h
        have hid : freshVerificationId now suf = id := by
          simpa using h
        subst hid
        refine ⟨rfl, ?_, f, rfl, ?_⟩
        · intro w hw heq
          have : db.verifications.any
              (fun v => v.verificationId == freshVerificationId now suf) = true :=
            List.any_eq_true.mpr ⟨w, hw, by rw [heq]; exact beq_self_eq_true _⟩
          rw [hd] at this
          exact Bool.false_ne_true this
        · rw [submitVerification_eq_ok hm hd]

theorem submit_users_cases (db : DB) (t a : String) (up : Option UploadedFile)
    (now rand : Nat) (suf : String) :
    (submitVerification db t a up now rand suf).2.users = db.users ∨
    (submitVerification db t a up now rand suf).2.users =
      upsertUserTaskFalse db.users a t now := by
  cases up with
  | none => exact Or.inl rfl
  | some f =>
    cases hm : multerAccepts f with
    | false => rw [submitVerification_eq_reject hm]; exact Or.inl rfl
    | true =>
      cases hd : db.verifications.any
          (fun v => v.verificationId == freshVerificationId now suf) with
      | true => rw [submitVerification_eq_dup hm hd]; exact Or.inl rfl
      | false =>
        rw [submitVerification_eq_ok hm hd]
        exact Or.inr rfl

theorem submit_verifications_cases (db : DB) (t a : String) (up : Option UploadedFile)
    (now rand : Nat) (suf : String) :
    (submitVerification db t a up now rand suf).2.verifications = db.verifications ∨
    ∃ f, up = some f ∧
      (submitVerification db t a up now rand suf).2.verifications =
       db.verifications ++ [newVerification (freshVerificationId now suf) a t f now rand] := by
  cases up with
  | none => exact Or.inl rfl
  | some f =>
    cases hm : multerAccepts f with
    | false => rw [submitVerification_eq_reject hm]; exact Or.inl rfl
    | true =>
      cases hd : db.verifications.any
          (fun v => v.verificationId == freshVerificationId now suf) with
      | true => rw [submitVerification_eq_dup hm hd]; exact Or.inl rfl
      | false =>
        rw [submitVerification_eq_ok hm hd]
        exact Or.inr ⟨f, rfl, rfl⟩

/-! ### User-collection lemmas -/

theorem upsertUser_true {users : List User} {addr task : String} {now : Nat}
    {u2 : User} {tq : String}
    (h : u2 ∈ upsertUserTaskFalse users addr task now)
    (ht : u2.tasksCompleted tq = true) :
    ∃ u ∈ users, u.userAddress = u2.userAddress ∧ u.tasksCompleted tq = true := by
  unfold upsertUserTaskFalse at h
  split at h
  · rcases List.mem_map.mp h with ⟨u, hu, hmap⟩
    by_cases ha : (u.userAddress == addr) = true
    · rw [if_pos ha] at hmap
      rw [← hmap] at ht
      rcases setTask_eq_true ht with ⟨_, hfalse⟩ | htrue
      · exact absurd hfalse (by simp)
      · exact ⟨u, hu, by rw [← hmap], htrue⟩
    · rw [if_neg ha] at hmap
      exact ⟨u, hu, by rw [hmap], by rw [hmap]; exact ht⟩
  · rcases List.mem_append.mp h with hu | hu
    · exact ⟨u2, hu, rfl, ht⟩
    · rw [List.mem_singleton] at hu
      rw [hu] at ht
      rcases setTask_eq_true ht with ⟨_, hfalse⟩ | htrue
      · exact absurd hfalse (by simp)
      · exact absurd htrue (by simp [defaultTasks])

theorem findUser_upsert {users : List User} {addr task : String} {now : Nat}
    (hc : enumTasks.contains task = true) :
    ((upsertUserTaskFalse users addr task now).find?
        (fun u => u.userAddress == addr)).map (fun u => u.tasksCompleted task) =
      some false := by
  unfold upsertUserTaskFalse
  split
  case isTrue hany =>
    have hrw := find?_map_when (fun u : User => u.userAddress == addr)
      (fun u : User => { u with tasksCompleted := setTask u.tasksCompleted task false })
      (fun u hu => hu) users
    rw [hrw]
    rcases List.any_eq_true.mp hany with ⟨u, hu, hp⟩
    obtain ⟨u0, hu0⟩ := Option.isSome_iff_exists.mp
      ((@List.find?_isSome User users (fun u : User => u.userAddress == addr)).mpr
        ⟨u, hu, hp⟩)
    rw [hu0]
    simp [setTask_self hc]
  case isFalse hany =>
    rw [List.find?_append]
    have hnone : users.find? (fun u => u.userAddress == addr) = none := by
      rw [List.find?_eq_none]
      intro u hu hp
      exact hany (List.any_eq_true.mpr ⟨u, hu, hp⟩)
    rw [hnone]
    simp [setTask_self hc]

/-! ### Equations for the review and registration handlers -/

theorem updateVerification_eq_none {db : DB} {id : String} {st : Status}
    {notes rBy : String} {now : Nat} (hfind : findVerification db id = none) :
    updateVerification db id st notes rBy now = (ReviewResult.notFound, db) := by
  simp [updateVerification, hfind]

theorem updateVerification_eq_some {db : DB} {id : String} {st : Status}
    {notes rBy : String} {now : Nat} {v : Verification}
    (hfind : findVerification db id = some v) :
    updateVerification db id st notes rBy now =
      (ReviewResult.updated,
       { verifications := db.verifications.map fun w =>
           if w.verificationId == id then reviewedRecord v st notes rBy now else w,
         users := if st = Status.verified then
             db.users.map fun u =>
               if u.userAddress == v.userAddress then
                 { u with tasksCompleted := setTask u.tasksCompleted v.task true }
               else u
           else db.users }) := by
  simp [updateVerification, hfind]

theorem trackRegistration_eq_dup {db : DB} {a : String} {rc : Option String}
    {now : Nat} (h : db.users.any (fun u => u.userAddress == a) = true) :
    trackRegistration db a rc now = (RegisterResult.duplicateUser, db) := by
  simp [trackRegistration, h]

theorem trackRegistration_eq_ok {db : DB} {a : String} {rc : Option String}
    {now : Nat} (h : db.users.any (fun u => u.userAddress == a) = false) :
    trackRegistration db a rc now =
      (RegisterResult.registered,
       { db with users := db.users ++ [newUserRecord a rc now] }) := by
  simp [trackRegistration, h]

/-! ### Stored ids across operations -/

theorem idsOf_update (db : DB) (id : String) (st : Status) (notes rBy : String)
    (now : Nat) : idsOf (updateVerification db id st notes rBy now).2 = idsOf db := by
  cases hf : findVerification db id with
  | none => rw [updateVerification_eq_none hf]
  | some v =>
    rw [updateVerification_eq_some hf]
    have hf2 : db.verifications.find? (fun w => w.verificationId == id) = some v := hf
    have hp := List.find?_some hf2
    have hv : v.verificationId = id := beq_iff_eq.mp hp
    unfold idsOf
    rw [List.map_map]
    apply List.map_congr_left
    intro w _
    simp only [Function.comp_apply]
    split
    case isTrue hw => exact (hv.trans (beq_iff_eq.mp hw).symm)
    case isFalse hw => rfl

theorem idsOf_register (db : DB) (a : String) (rc : Option String) (now : Nat) :
    idsOf (trackRegistration db a rc now).2 = idsOf db := by
  cases h : db.users.any (fun u => u.userAddress == a) with
  | true => rw [trackRegistration_eq_dup h]
  | false => rw [trackRegistration_eq_ok h]; rfl

theorem idsOf_applyOp_sub (db : DB) (op : Op) :
    ∀ x ∈ idsOf db, x ∈ idsOf (applyOp db op) := by
  intro x hx
  cases op with
  | submit t a up now rand suf =>
    rcases submit_verifications_cases db t a up now rand suf with hc | ⟨f, _, hc⟩
    · show x ∈ idsOf (submitVerification db t a up now rand suf).2
      unfold idsOf
      rw [hc]
      exact hx
    · show x ∈ idsOf (submitVerification db t a up now rand suf).2
      unfold idsOf
      rw [hc, List.map_append]
      exact List.mem_append.mpr (Or.inl hx)
  | review id st notes rBy now =>
    show x ∈ idsOf (updateVerification db id st notes rBy now).2
    rw [idsOf_update]
    exact hx
  | register a rc now =>
    show x ∈ idsOf (trackRegistration db a rc now).2
    rw [idsOf_register]
    exact hx

theorem submit_ok_idsOf {db : DB} {t a : String} {up : Option UploadedFile}
    {now rand : Nat} {suf id : String}
    (h : (submitVerification db t a up now rand suf).1 = SubmitResult.submitted id) :
    idsOf (submitVerification db t a up now rand suf).2 = idsOf db ++ [id] ∧
      id ∉ idsOf db := by
  obtain ⟨_, hfresh, f, _, hdb⟩ := submit_ok h
  constructor
  · rw [hdb]
    unfold idsOf
    rw [List.map_append]
    rfl
  · intro hmem
    rcases List.mem_map.mp hmem with ⟨w, hw, hww⟩
    exact hfresh w hw hww

theorem traceIds_step_empty {db : DB} {op : Op} {ops : List Op}
    (hop : opReturnedIds db op = [])
    (ih : (traceIds (applyOp db op) ops).Nodup ∧
      ∀ x ∈ traceIds (applyOp db op) ops, x ∉ idsOf (applyOp db op)) :
    (traceIds db (op :: ops)).Nodup ∧
      ∀ x ∈ traceIds db (op :: ops), x ∉ idsOf db := by
  constructor
  · show (opReturnedIds db op ++ traceIds (applyOp db op) ops).Nodup
    rw [hop, List.nil_append]
    exact ih.1
  · intro x hx
    have hx2 : x ∈ opReturnedIds db op ++ traceIds (applyOp db op) ops := hx
    rw [hop, List.nil_append] at hx2
    intro hmem
    exact ih.2 x hx2 (idsOf_applyOp_sub db op x hmem)

theorem traceIds_spec (ops : List Op) :
    ∀ db : DB, (traceIds db ops).Nodup ∧ ∀ x ∈ traceIds db ops, x ∉ idsOf db := by
  induction ops with
  | nil =>
    intro db
    exact ⟨List.nodup_nil, by intro x hx; cases hx⟩
  | cons op ops ih =>
    intro db
    have ihd := ih (applyOp db op)
    cases op with
    | submit t a up now rand suf =>
      cases hr : (submitVerification db t a up now rand suf).1 with
      | submitted id =>
        obtain ⟨hids, hfresh⟩ := submit_ok_idsOf hr
        have hop : opReturnedIds db (Op.submit t a up now rand suf) = [id] := by
          show submitResultIds (submitVerification db t a up now rand suf).1 = [id]
          rw [hr]
          rfl
        constructor
        · show (opReturnedIds db _ ++ traceIds (applyOp db _) ops).Nodup
          rw [hop, List.singleton_append, List.nodup_cons]
          refine ⟨?_, ihd.1⟩
          intro hmem
          apply ihd.2 id hmem
          show id ∈ idsOf (submitVerification db t a up now rand suf).2
          rw [hids]
          exact List.mem_append.mpr (Or.inr (List.mem_singleton.mpr rfl))
        · intro x hx
          have hx2 : x ∈ opReturnedIds db (Op.submit t a up now rand suf) ++
              traceIds (applyOp db _) ops := hx
          rw [hop, List.singleton_append] at hx2
          rcases List.mem_cons.mp hx2 with heq | hx3
          · rw [heq]
            exact hfresh
          · intro hmem
            exact ihd.2 x hx3 (idsOf_applyOp_sub db _ x hmem)
      | noFile =>
        refine traceIds_step_empty ?_ ihd
        show submitResultIds (submitVerification db t a up now rand suf).1 = []
        rw [hr]
        rfl
      | uploadError =>
        refine traceIds_step_empty ?_ ihd
        show submitResultIds (submitVerification db t a up now rand suf).1 = []
        rw [hr]
        rfl
      | duplicateId =>
        refine traceIds_step_empty ?_ ihd
        show submitResultIds (submitVerification db t a up now rand suf).1 = []
        rw [hr]
        rfl
    | review id st notes rBy now =>
      exact traceIds_step_empty rfl ihd
    | register a rc now =>
      exact traceIds_step_empty rfl ihd

/-! ### Invariant of the statusMap fold -/

/-- Invariant of the statusMap accumulator over the processed prefix l:
keys are distinct, every kept entry is keyed by its own task, comes from
the prefix, and dominates the submittedAt of every processed record of
its task, and every processed record has an entry for its task. -/
def InvM (l : List Verification) (m : List (String × Verification)) : Prop :=
  (m.map Prod.fst).Nodup ∧
  (∀ p ∈ m, p.1 = p.2.task ∧ p.2 ∈ l ∧
    ∀ w ∈ l, w.task = p.1 → w.submittedAt ≤ p.2.submittedAt) ∧
  (∀ w ∈ l, ∃ p ∈ m, p.1 = w.task)

theorem invM_upsert {l : List Verification} {m : List (String × Verification)}
    {v : Verification} (h : InvM l m) : InvM (l ++ [v]) (upsertTask m v) := by
  obtain ⟨hnd, hent, hcov⟩ := h
  cases hfind : m.find? (fun p => p.1 == v.task) with
  | none =>
    have hm2 : upsertTask m v = m ++ [(v.task, v)] := by
      unfold upsertTask
      rw [hfind]
    rw [hm2]
    have hnotmem : ∀ p ∈ m, p.1 ≠ v.task := by
      intro p hp heq
      exact List.find?_eq_none.mp hfind p hp (by rw [heq]; exact beq_self_eq_true _)
    refine ⟨?_, ?_, ?_⟩
    · rw [List.map_append, List.nodup_append]
      refine ⟨hnd, List.nodup_singleton _, ?_⟩
      intro x hx hx2
      rcases List.mem_map.mp hx with ⟨p, hp, hpx⟩
      have hx3 : x = v.task := List.mem_singleton.mp hx2
      exact hnotmem p hp (hpx.trans hx3)
    · intro p hp
      rcases List.mem_append.mp hp with hp | hp
      · obtain ⟨hk, hmem, hmax⟩ := hent p hp
        refine ⟨hk, List.mem_append.mpr (Or.inl hmem), ?_⟩
        intro w hw hwt
        rcases List.mem_append.mp hw with hw | hw
        · exact hmax w hw hwt
        · rw [List.mem_singleton] at hw
          rw [hw] at hwt
          exact absurd hwt.symm (hnotmem p hp)
      · rw [List.mem_singleton] at hp
        rw [hp]
        refine ⟨rfl, List.mem_append.mpr (Or.inr (List.mem_singleton.mpr rfl)), ?_⟩
        intro w hw hwt
        rcases List.mem_append.mp hw with hw | hw
        · exfalso
          obtain ⟨q, hq, hqk⟩ := hcov w hw
          exact hnotmem q hq (hqk.trans hwt)
        · rw [List.mem_singleton] at hw
          rw [hw]
    · intro w hw
      rcases List.mem_append.mp hw with hw | hw
      · obtain ⟨p, hp, hk⟩ := hcov w hw
        exact ⟨p, List.mem_append.mpr (Or.inl hp), hk⟩
      · rw [List.mem_singleton] at hw
        rw [hw]
        exact ⟨(v.task, v), List.mem_append.mpr (Or.inr (List.mem_singleton.mpr rfl)), rfl⟩
  | some p0 =>
    have hp0mem : p0 ∈ m := List.mem_of_find?_eq_some hfind
    have hps := List.find?_some hfind
    have hp0t : p0.1 = v.task := beq_iff_eq.mp hps
    obtain ⟨hp0k, hp0mem2, hp0max⟩ := hent p0 hp0mem
    have hm2 : upsertTask m v =
        if p0.2.submittedAt < v.submittedAt then
          (m.map fun q => if q.1 == v.task then (v.task, v) else q)
        else m := by
      unfold upsertTask
      rw [hfind]
    rw [hm2]
    by_cases hlt : p0.2.submittedAt < v.submittedAt
    · rw [if_pos hlt]
      have hkeys : ((m.map fun q => if q.1 == v.task then (v.task, v) else q).map
          Prod.fst) = m.map Prod.fst := by
        rw [List.map_map]
        apply List.map_congr_left
        intro q _
        simp only [Function.comp_apply]
        split
        case isTrue hq => exact (beq_iff_eq.mp hq).symm
        case isFalse => rfl
      refine ⟨by rw [hkeys]; exact hnd, ?_, ?_⟩
      · intro p hp
        rcases List.mem_map.mp hp with ⟨q, hq, hmap⟩
        by_cases hqk : (q.1 == v.task) = true
        · rw [if_pos hqk] at hmap
          rw [← hmap]
          refine ⟨rfl, List.mem_append.mpr (Or.inr (List.mem_singleton.mpr rfl)), ?_⟩
          intro w hw hwt
          rcases List.mem_append.mp hw with hw | hw
          · refine Nat.le_of_lt (Nat.lt_of_le_of_lt ?_ hlt)
            exact hp0max w hw (by rw [hp0t]; exact hwt)
          · rw [List.mem_singleton] at hw
            rw [hw]
        · rw [if_neg hqk] at hmap
          rw [← hmap]
          obtain ⟨hk, hmem, hmax⟩ := hent q hq
          refine ⟨hk, List.mem_append.mpr (Or.inl hmem), ?_⟩
          intro w hw hwt
          rcases List.mem_append.mp hw with hw | hw
          · exact hmax w hw hwt
          · rw [List.mem_singleton] at hw
            rw [hw] at hwt
            exact absurd (beq_iff_eq.mpr hwt.symm) hqk
      · intro w hw
        rcases List.mem_append.mp hw with hw | hw
        · obtain ⟨p, hp, hk⟩ := hcov w hw
          refine ⟨(fun q => if q.1 == v.task then (v.task, v) else q) p,
            List.mem_map.mpr ⟨p, hp, rfl⟩, ?_⟩
          show (if (p.1 == v.task) = true then ((v.task, v) : String × Verification)
            else p).1 = w.task
          by_cases hpk : (p.1 == v.task) = true
          · rw [if_pos hpk]
            exact (beq_iff_eq.mp hpk).symm.trans hk
          · rw [if_neg hpk]
            exact hk
        · rw [List.mem_singleton] at hw
          rw [hw]
          refine ⟨(v.task, v), List.mem_map.mpr ⟨p0, hp0mem, ?_⟩, rfl⟩
          rw [if_pos (beq_iff_eq.mpr hp0t)]
    · rw [if_neg hlt]
      refine ⟨hnd, ?_, ?_⟩
      · intro p hp
        obtain ⟨hk, hmem, hmax⟩ := hent p hp
        refine ⟨hk, List.mem_append.mpr (Or.inl hmem), ?_⟩
        intro w hw hwt
        rcases List.mem_append.mp hw with hw | hw
        · exact hmax w hw hwt
        · rw [List.mem_singleton] at hw
          subst hw
          have hpp0 : p = p0 :=
            nodup_keys_eq hnd hp hp0mem (hwt.symm.trans hp0t.symm)
          rw [hpp0]
          exact Nat.le_of_not_lt hlt
      · intro w hw
        rcases List.mem_append.mp hw with hw | hw
        · exact hcov w hw
        · rw [List.mem_singleton] at hw
          rw [hw]
          exact ⟨p0, hp0mem, hp0t⟩

theorem invM_foldl :
    ∀ (l L : List Verification) (m : List (String × Verification)),
      InvM L m → InvM (L ++ l) (l.foldl upsertTask m)
  | [], L, m, h => by rw [List.append_nil]; exact h
  | v :: l, L, m, h => by
    have h3 := invM_foldl l (L ++ [v]) (upsertTask m v) (invM_upsert h)
    rw [List.append_assoc, List.singleton_append] at h3
    exact h3

theorem invM_run (l : List Verification) : InvM l (l.foldl upsertTask []) := by
  have h0 : InvM [] [] := by
    refine ⟨List.nodup_nil, ?_, ?_⟩
    · intro p hp
      cases hp
    · intro w hw
      cases hw
  have h := invM_foldl l [] [] h0
  rwa [List.nil_append] at h

/-! ### Characterisation of the status handler -/

theorem mem_userVerificationsSorted {db : DB} {addr : String} {w : Verification} :
    w ∈ userVerificationsSorted db addr ↔
      w ∈ db.verifications ∧ w.userAddress = addr := by
  unfold userVerificationsSorted
  rw [mem_sortBy, List.mem_filter]
  constructor
  · rintro ⟨h1, h2⟩
    exact ⟨h1, beq_iff_eq.mp h2⟩
  · rintro ⟨h1, h2⟩
    exact ⟨h1, beq_iff_eq.mpr h2⟩

theorem lookupTask_getStatus (db : DB) (addr t : String) :
    lookupTask (getVerificationStatus db addr) t =
      (((userVerificationsSorted db addr).foldl upsertTask []).find?
        (fun p => p.1 == t)).map fun p => p.2.status := by
  unfold lookupTask getVerificationStatus
  have hrw := find?_map_keyeq
    (fun p : String × Verification => ((p.1, p.2.status) : String × Status))
    (fun p => p.1 == t) (fun p => p.1 == t) (fun p => rfl)
    ((userVerificationsSorted db addr).foldl upsertTask [])
  rw [hrw, Option.map_map]
  rfl

theorem getStatus_isSome (db : DB) (addr t : String) :
    (lookupTask (getVerificationStatus db addr) t).isSome = true ↔
      ∃ v ∈ db.verifications, v.userAddress = addr ∧ v.task = t := by
  rw [lookupTask_getStatus]
  have hinv := invM_run (userVerificationsSorted db addr)
  constructor
  · intro h
    cases hfind : ((userVerificationsSorted db addr).foldl upsertTask []).find?
        (fun p => p.1 == t) with
    | none => rw [hfind] at h; cases h
    | some p =>
      have hfs := List.find?_some hfind
      have hpt : p.1 = t := beq_iff_eq.mp hfs
      obtain ⟨hk, hmem, _⟩ := hinv.2.1 p (List.mem_of_find?_eq_some hfind)
      rcases mem_userVerificationsSorted.mp hmem with ⟨h1, h2⟩
      exact ⟨p.2, h1, h2, hk.symm.trans hpt⟩
  · rintro ⟨v, hv, haddr, htask⟩
    obtain ⟨p, hp, hk⟩ := hinv.2.2 v (mem_userVerificationsSorted.mpr ⟨hv, haddr⟩)
    have hsome := (@List.find?_isSome (String × Verification)
      ((userVerificationsSorted db addr).foldl upsertTask [])
      (fun p => p.1 == t)).mpr ⟨p, hp, beq_iff_eq.mpr (hk.trans htask)⟩
    obtain ⟨q, hq⟩ := Option.isSome_iff_exists.mp hsome
    rw [hq]
    rfl

theorem getStatus_some {db : DB} {addr t : String} {s : Status}
    (h : lookupTask (getVerificationStatus db addr) t = some s) :
    ∃ v ∈ db.verifications, v.userAddress = addr ∧ v.task = t ∧ v.status = s ∧
      ∀ w ∈ db.verifications, w.userAddress = addr → w.task = t →
        w.submittedAt ≤ v.submittedAt := by
  rw [lookupTask_getStatus] at h
  have hinv := invM_run (userVerificationsSorted db addr)
  cases hfind : ((userVerificationsSorted db addr).foldl upsertTask []).find?
      (fun p => p.1 == t) with
  | none => rw [hfind] at h; cases h
  | some p =>
    rw [hfind] at h
    have hs : p.2.status = s := by
      simpa using h
    have hfs := List.find?_some hfind
    have hpt : p.1 = t := beq_iff_eq.mp hfs
    obtain ⟨hk, hmem, hmax⟩ := hinv.2.1 p (List.mem_of_find?_eq_some hfind)
    rcases mem_userVerificationsSorted.mp hmem with ⟨h1, h2⟩
    refine ⟨p.2, h1, h2, hk.symm.trans hpt, hs, ?_⟩
    intro w hw haddr htask
    exact hmax w (mem_userVerificationsSorted.mpr ⟨hw, haddr⟩) (htask.trans hpt.symm)

theorem getStatus_keys_nodup (db : DB) (addr : String) :
    ((getVerificationStatus db addr).map Prod.fst).Nodup := by
  have hinv := invM_run (userVerificationsSorted db addr)
  unfold getVerificationStatus
  rw [List.map_map]
  exact hinv.1

/-! ### Concrete fixtures used by witnesses and counterexamples -/

/-- Spec-side reading of a MIME type whose prefix indicates an image:
the type starts with image followed by a slash. -/
def imagePrefixed (s : String) : Bool :=
  List.isPrefixOf "image/".data s.data

/-- A well-formed screenshot upload. -/
def okFile : UploadedFile := { mimetype := "image/png", extname := ".png", size := 100 }

/-- A file whose declared content type is not an image type but contains
the substring jpeg. -/
def fakeJpegFile : UploadedFile :=
  { mimetype := "application/jpeg", extname := ".jpg", size := 100 }

/-- A clearly non-image upload. -/
def pdfFile : UploadedFile :=
  { mimetype := "application/pdf", extname := ".pdf", size := 100 }

/-- Store after one submission for task twitter by user 0xA. -/
def stDB1 : DB := (submitVerification emptyDB "twitter" "0xA" (some okFile) 1 1 "AAAA").2

/-- Store after a second, later submission for the same task and user. -/
def stDB2 : DB := (submitVerification stDB1 "twitter" "0xA" (some okFile) 2 2 "BBBB").2

/-- Store after the admin approves the first (older) submission. -/
def stDB3 : DB := (updateVerification stDB2 "VER1AAAA" Status.verified "ok" "admin" 3).2

/-- The record created by the first fixture submission. -/
def stV1 : Verification := newVerification "VER1AAAA" "0xA" "twitter" okFile 1 1

/-- Store after one registration. -/
def regDB1 : DB := (trackRegistration emptyDB "0xA" (some "REF") 1).2

/-- A client file whose type merely contains the substring image. -/
def fakeImageFile : ClientFile := { type := "fake/image", size := 10 }

/-- A well-formed client image file. -/
def okImageFile : ClientFile := { type := "image/png", size := 1000 }

/-- A client file with a non-image type. -/
def pdfClientFile : ClientFile := { type := "application/pdf", size := 1000 }

/-! ### Claim theorems -/

/-- C7: every Review call whose verificationId references no existing
record returns NotFoundError (HTTP 404) and mutates no Verification or
User record: the store is returned unchanged. -/
theorem review_notFound (db : DB) (id : String) (st : Status) (notes rBy : String)
    (now : Nat) (h : findVerification db id = none) :
    updateVerification db id st notes rBy now = (ReviewResult.notFound, db) ∧
      reviewHttpStatus ReviewResult.notFound = 404 :=
  ⟨updateVerification_eq_none h, rfl⟩

/-- Witness for C7 at the empty store and a concrete id. -/
theorem review_notFound_witness :
    findVerification emptyDB "VERX" = none ∧
      (updateVerification emptyDB "VERX" Status.verified "notes" "admin" 5 =
        (ReviewResult.notFound, emptyDB) ∧
       reviewHttpStatus ReviewResult.notFound = 404) :=
  ⟨rfl, review_notFound emptyDB "VERX" Status.verified "notes" "admin" 5 rfl⟩

/-- C8: ListPending returns exactly the pending verification records — a
record is in the result exactly when it is stored with status pending —
ordered by ascending submittedAt. -/
theorem pending_queue_correct (db : DB) :
    (∀ v : Verification, v ∈ getPendingVerifications db ↔
      v ∈ db.verifications ∧ v.status = Status.pending) ∧
    List.Pairwise (fun a b => a.submittedAt ≤ b.submittedAt)
      (getPendingVerifications db) := by
  constructor
  · intro v
    unfold getPendingVerifications
    rw [mem_sortBy, List.mem_filter]
    constructor
    · rintro ⟨h1, h2⟩
      exact ⟨h1, beq_iff_eq.mp h2⟩
    · rintro ⟨h1, h2⟩
      exact ⟨h1, beq_iff_eq.mpr h2⟩
  · unfold getPendingVerifications
    have htrans : ∀ a b c : Verification,
        Nat.ble a.submittedAt b.submittedAt = true →
        Nat.ble b.submittedAt c.submittedAt = true →
        Nat.ble a.submittedAt c.submittedAt = true := by
      intro a b c h1 h2
      rw [Nat.ble_eq] at h1 h2 ⊢
      exact Nat.le_trans h1 h2
    have htot : ∀ a b : Verification,
        Nat.ble a.submittedAt b.submittedAt = true ∨
        Nat.ble b.submittedAt a.submittedAt = true := by
      intro a b
      rw [Nat.ble_eq, Nat.ble_eq]
      exact Nat.le_total _ _
    have hp := pairwise_sortBy htrans htot
      (db.verifications.filter fun v => v.status == Status.pending)
    exact hp.imp (fun hab => by rwa [Nat.ble_eq] at hab)

/-- C6: along any run of operations from any store, the verificationIds
returned by successful Submit calls are pairwise distinct. -/
theorem verificationIds_unique (db : DB) (ops : List Op) :
    (traceIds db ops).Nodup :=
  (traceIds_spec ops db).1

/-- C5: in every state reachable by the specified operations (reviews
carry a verified-or-rejected status), a verification has a null
reviewedAt exactly while its status is pending. -/
theorem reviewedAt_iff_pending {db : DB} (h : Reachable db) :
    ∀ v ∈ db.verifications, v.reviewedAt = none ↔ v.status = Status.pending := by
  induction h with
  | init =>
    intro v hv
    cases hv
  | submit db t a up now rand suf _ ih =>
    intro v hv
    have hv2 : v ∈ (submitVerification db t a up now rand suf).2.verifications := hv
    rcases submit_verifications_cases db t a up now rand suf with hc | ⟨f, _, hc⟩
    · rw [hc] at hv2
      exact ih v hv2
    · rw [hc] at hv2
      rcases List.mem_append.mp hv2 with hv3 | hv3
      · exact ih v hv3
      · rw [List.mem_singleton] at hv3
        rw [hv3]
        exact ⟨fun _ => rfl, fun _ => rfl⟩
  | review db id st notes rBy now hst _ ih =>
    intro v hv
    have hv2 : v ∈ (updateVerification db id st notes rBy now).2.verifications := hv
    cases hf : findVerification db id with
    | none =>
      rw [updateVerification_eq_none hf] at hv2
      exact ih v hv2
    | some v0 =>
      rw [updateVerification_eq_some hf] at hv2
      rcases List.mem_map.mp hv2 with ⟨w, hw, hmap⟩
      by_cases hwid : (w.verificationId == id) = true
      · rw [if_pos hwid] at hmap
        rw [← hmap]
        simp [reviewedRecord, hst]
      · rw [if_neg hwid] at hmap
        rw [← hmap]
        exact ih w hw
  | register db a rc now _ ih =>
    intro v hv
    have hv2 : v ∈ (trackRegistration db a rc now).2.verifications := hv
    cases hr : db.users.any (fun u => u.userAddress == a) with
    | true =>
      rw [trackRegistration_eq_dup hr] at hv2
      exact ih v hv2
    | false =>
      rw [trackRegistration_eq_ok hr] at hv2
      exact ih v hv2

/-- Witness for C5 at a concrete reachable store. -/
theorem reviewedAt_iff_pending_witness :
    stV1 ∈ stDB1.verifications ∧
      (stV1.reviewedAt = none ↔ stV1.status = Status.pending) := by
  have hreach : Reachable stDB1 :=
    Reachable.submit emptyDB "twitter" "0xA" (some okFile) 1 1 "AAAA" Reachable.init
  have hmem : stV1 ∈ stDB1.verifications := by decide
  exact ⟨hmem, reviewedAt_iff_pending hreach stV1 hmem⟩

/-- C4: the status object contains exactly the tasks having at least one
verification by the user; each returned status is realised by one of the
user verifications of that task with maximal submittedAt; the keys are
distinct.  The handler is a pure read of the store. -/
theorem getStatus_correct (db : DB) (addr : String) :
    (∀ t : String, (lookupTask (getVerificationStatus db addr) t).isSome = true ↔
      ∃ v ∈ db.verifications, v.userAddress = addr ∧ v.task = t) ∧
    (∀ (t : String) (s : Status),
      lookupTask (getVerificationStatus db addr) t = some s →
      ∃ v ∈ db.verifications, v.userAddress = addr ∧ v.task = t ∧ v.status = s ∧
        ∀ w ∈ db.verifications, w.userAddress = addr → w.task = t →
          w.submittedAt ≤ v.submittedAt) ∧
    ((getVerificationStatus db addr).map Prod.fst).Nodup :=
  ⟨fun t => getStatus_isSome db addr t,
   fun _ _ h => getStatus_some h,
   getStatus_keys_nodup db addr⟩

/-- Witness for C4 on a concrete store with two submissions and a review. -/
theorem getStatus_correct_witness :
    lookupTask (getVerificationStatus stDB3 "0xA") "twitter" = some Status.pending ∧
    (∃ v ∈ stDB3.verifications, v.userAddress = "0xA" ∧ v.task = "twitter" ∧
      v.status = Status.pending ∧ ∀ w ∈ stDB3.verifications, w.userAddress = "0xA" →
        w.task = "twitter" → w.submittedAt ≤ v.submittedAt) :=
  ⟨by decide, (getStatus_correct stDB3 "0xA").2.1 "twitter" Status.pending (by decide)⟩

/-- C3 counterexample: a file whose content type is not an image type
(it does not start with image) but contains the substring jpeg passes the
unanchored filter: the submission succeeds and creates a record, so a
Submit with a non-image content type does not always fail with a 400. -/
theorem submit_nonimage_accepted_cex :
    (imagePrefixed fakeJpegFile.mimetype = false) ∧
    fakeJpegFile.size ≤ 5 * 1024 * 1024 ∧
    (submitVerification emptyDB "twitter" "0xA" (some fakeJpegFile) 1 1 "AAAA").1 =
      SubmitResult.submitted "VER1AAAA" ∧
    (submitVerification emptyDB "twitter" "0xA"
      (some fakeJpegFile) 1 1 "AAAA").2.verifications.length = 1 := by
  exact ⟨by decide, by decide, by decide, by decide⟩

/-- C3 amended: a Submit whose file fails the substring filter on the
content type or extension, or exceeds 5 MiB, is rejected by the upload
middleware before the handler runs — reported by the default error
handler as 500, not as a 400 — and creates no record. -/
theorem submit_filter_rejects (db : DB) (t a : String) (f : UploadedFile)
    (now rand : Nat) (suf : String)
    (h : fileFilterAccepts f = false ∨ 5 * 1024 * 1024 < f.size) :
    submitVerification db t a (some f) now rand suf = (SubmitResult.uploadError, db) ∧
      submitHttpStatus SubmitResult.uploadError = 500 ∧
      submitHttpStatus SubmitResult.uploadError ≠ 400 := by
  have hm : multerAccepts f = false := by
    unfold multerAccepts
    rcases h with h | h
    · rw [h]
      rfl
    · rw [decide_eq_false (Nat.not_le.mpr h)]
      exact Bool.and_false _
  exact ⟨submitVerification_eq_reject hm, rfl, by decide⟩

/-- Witness for the amended C3 at a pdf upload. -/
theorem submit_filter_rejects_witness :
    (fileFilterAccepts pdfFile = false ∨ 5 * 1024 * 1024 < pdfFile.size) ∧
    (submitVerification emptyDB "twitter" "0xA" (some pdfFile) 1 1 "AAAA" =
        (SubmitResult.uploadError, emptyDB) ∧
      submitHttpStatus SubmitResult.uploadError = 500 ∧
      submitHttpStatus SubmitResult.uploadError ≠ 400) :=
  ⟨Or.inl (by decide),
   submit_filter_rejects emptyDB "twitter" "0xA" pdfFile 1 1 "AAAA" (Or.inl (by decide))⟩

/-- C9 counterexample: registering an address that already has a User
record fails on the unique index — reported as 500, not success — and
creates no record, so TrackRegistration does not succeed for every
userAddress. -/
theorem trackRegistration_duplicate_cex :
    (trackRegistration regDB1 "0xA" (some "REF") 2).1 =
      RegisterResult.duplicateUser ∧
    RegisterResult.duplicateUser ≠ RegisterResult.registered ∧
    registerHttpStatus RegisterResult.duplicateUser = 500 ∧
    (trackRegistration regDB1 "0xA" (some "REF") 2).2 = regDB1 := by
  refine ⟨by decide, by decide, by decide, rfl⟩

/-- C9 amended: provided no User record with that userAddress exists,
TrackRegistration appends a User with isActive true, the given referral
code and schema defaults, and returns success; the created user is found
active afterwards. -/
theorem trackRegistration_fresh (db : DB) (a : String) (rc : Option String)
    (now : Nat) (h : findUser db a = none) :
    trackRegistration db a rc now =
      (RegisterResult.registered,
       { db with users := db.users ++ [newUserRecord a rc now] }) ∧
    (findUser (trackRegistration db a rc now).2 a).map (fun u => u.isActive) =
      some true := by
  have h2 : db.users.find? (fun u => u.userAddress == a) = none := h
  have hany : db.users.any (fun u => u.userAddress == a) = false := by
    cases hh : db.users.any (fun u => u.userAddress == a) with
    | false => rfl
    | true =>
      rcases List.any_eq_true.mp hh with ⟨u, hu, hp⟩
      exact absurd hp (List.find?_eq_none.mp h2 u hu)
  refine ⟨trackRegistration_eq_ok hany, ?_⟩
  rw [trackRegistration_eq_ok hany]
  show ((db.users ++ [newUserRecord a rc now]).find?
      (fun u => u.userAddress == a)).map (fun u => u.isActive) = some true
  rw [List.find?_append, h2]
  have hx : ((newUserRecord a rc now).userAddress == a) = true := beq_self_eq_true a
  simp [List.find?, hx, newUserRecord]

/-- Witness for the amended C9 at the empty store. -/
theorem trackRegistration_fresh_witness :
    findUser emptyDB "0xB" = none ∧
    (trackRegistration emptyDB "0xB" (some "REF") 7 =
      (RegisterResult.registered,
       { emptyDB with users := emptyDB.users ++
           [newUserRecord "0xB" (some "REF") 7] }) ∧
    (findUser (trackRegistration emptyDB "0xB" (some "REF") 7).2 "0xB").map
      (fun u => u.isActive) = some true) :=
  ⟨rfl, trackRegistration_fresh emptyDB "0xB" (some "REF") 7 rfl⟩

/-- C10 counterexample: a file whose MIME type does not start with image
but contains it as a substring passes the widget validation — the preview
is shown and the submit action enabled — so enablement is not equivalent
to an image MIME prefix. -/
theorem handleFiles_substring_cex :
    handleFiles resetUploadArea [fakeImageFile] =
      (none, { previewShown := true, submitEnabled := true }) ∧
    (imagePrefixed fakeImageFile.type = false) := by
  exact ⟨by decide, by decide⟩

/-- C10 amended: the widget enables submission and shows the preview
exactly when the MIME type contains the substring image and the size is
at most 5 MiB; on a validation failure it raises the corresponding error
dialog and leaves the widget state (a disabled submit action included)
unchanged. -/
theorem handleFiles_validation (s : WidgetState) (f : ClientFile) :
    ((containsSub f.type "image" = true ∧ f.size ≤ 5 * 1024 * 1024) →
      handleFiles s [f] = (none, { previewShown := true, submitEnabled := true })) ∧
    (containsSub f.type "image" = false →
      handleFiles s [f] = (some "Please upload an image file (JPG, PNG, GIF)", s)) ∧
    (containsSub f.type "image" = true → 5 * 1024 * 1024 < f.size →
      handleFiles s [f] = (some "Maximum file size is 5MB", s)) := by
  refine ⟨?_, ?_, ?_⟩
  · rintro ⟨h1, h2⟩
    show (if containsSub f.type "image" = false then
        ((some "Please upload an image file (JPG, PNG, GIF)" : Option String), s)
      else if 5 * 1024 * 1024 < f.size then
        ((some "Maximum file size is 5MB" : Option String), s)
      else (none, { previewShown := true, submitEnabled := true })) =
      (none, { previewShown := true, submitEnabled := true })
    rw [if_neg (by rw [h1]; exact (by decide)), if_neg (Nat.not_lt.mpr h2)]
  · intro h1
    show (if containsSub f.type "image" = false then
        ((some "Please upload an image file (JPG, PNG, GIF)" : Option String), s)
      else if 5 * 1024 * 1024 < f.size then
        ((some "Maximum file size is 5MB" : Option String), s)
      else (none, { previewShown := true, submitEnabled := true })) =
      (some "Please upload an image file (JPG, PNG, GIF)", s)
    rw [if_pos h1]
  · intro h1 h2
    show (if containsSub f.type "image" = false then
        ((some "Please upload an image file (JPG, PNG, GIF)" : Option String), s)
      else if 5 * 1024 * 1024 < f.size then
        ((some "Maximum file size is 5MB" : Option String), s)
      else (none, { previewShown := true, submitEnabled := true })) =
      (some "Maximum file size is 5MB", s)
    rw [if_neg (by rw [h1]; exact (by decide)), if_pos h2]

/-- C2 counterexample: reviewing the older of two submissions as
verified succeeds, but a subsequent GetStatus returns the status of the
newer, still pending submission for the task — not verified. -/
theorem review_older_getStatus_cex :
    (updateVerification stDB2 "VER1AAAA" Status.verified "ok" "admin" 3).1 =
      ReviewResult.updated ∧
    lookupTask (getVerificationStatus stDB3 "0xA") "twitter" =
      some Status.pending ∧
    (some Status.pending : Option Status) ≠ some Status.verified := by
  exact ⟨by decide, by decide, by decide⟩

/-- C2 amended: a review of an existing record returns success and
overwrites the record's status, notes, reviewer and review time; on a
verified status, the owner's tasksCompleted flag for the record's
(enumerated) task is set true whenever a User record exists; a following
GetStatus returns verified for that user and task provided the reviewed
record is the strictly most recently submitted one for the task; a
rejected status leaves the User collection untouched. -/
theorem review_effects (db : DB) (id : String) (st : Status) (notes rBy : String)
    (now : Nat) (v : Verification) (hfind : findVerification db id = some v) :
    (updateVerification db id st notes rBy now).1 = ReviewResult.updated ∧
    findVerification (updateVerification db id st notes rBy now).2 id =
      some (reviewedRecord v st notes rBy now) ∧
    (st = Status.verified → enumTasks.contains v.task = true →
      (findUser (updateVerification db id st notes rBy now).2 v.userAddress).map
          (fun u => u.tasksCompleted v.task) =
        (findUser db v.userAddress).map (fun _ => true)) ∧
    (st = Status.verified →
      (∀ w ∈ db.verifications, w.userAddress = v.userAddress → w.task = v.task →
        w ≠ v → w.submittedAt < v.submittedAt) →
      lookupTask (getVerificationStatus
        (updateVerification db id st notes rBy now).2 v.userAddress) v.task =
        some Status.verified) ∧
    (st = Status.rejected →
      (updateVerification db id st notes rBy now).2.users = db.users) := by
  have hf2 : db.verifications.find? (fun w => w.verificationId == id) = some v := hfind
  have hvid0 := List.find?_some hf2
  have hvid : (v.verificationId == id) = true := hvid0
  have hvmem : v ∈ db.verifications := List.mem_of_find?_eq_some hf2
  have hrrid : ((reviewedRecord v st notes rBy now).verificationId == id) = true := hvid
  refine ⟨?_, ?_, ?_, ?_, ?_⟩
  · rw [updateVerification_eq_some hfind]
  · rw [updateVerification_eq_some hfind]
    show ((db.verifications.map fun w =>
        if w.verificationId == id then reviewedRecord v st notes rBy now else w).find?
      (fun w => w.verificationId == id)) = some (reviewedRecord v st notes rBy now)
    have hrw := find?_map_when (fun w : Verification => w.verificationId == id)
      (fun _ => reviewedRecord v st notes rBy now) (fun _ _ => hrrid) db.verifications
    rw [hrw, hf2]
    rfl
  · intro hst henum
    rw [updateVerification_eq_some hfind]
    show ((if st = Status.verified then
        (db.users.map fun u => if u.userAddress == v.userAddress then
          { u with tasksCompleted := setTask u.tasksCompleted v.task true } else u)
      else db.users).find? (fun u => u.userAddress == v.userAddress)).map
      (fun u => u.tasksCompleted v.task) =
      (findUser db v.userAddress).map fun _ => true
    rw [if_pos hst]
    have hrw := find?_map_when (fun u : User => u.userAddress == v.userAddress)
      (fun u : User => { u with tasksCompleted := setTask u.tasksCompleted v.task true })
      (fun _ hu => hu) db.users
    rw [hrw]
    show ((db.users.find? fun u => u.userAddress == v.userAddress).map _).map _ =
      ((db.users.find? fun u => u.userAddress == v.userAddress).map fun _ => true)
    cases hu : db.users.find? (fun u => u.userAddress == v.userAddress) with
    | none => rfl
    | some u =>
      show some (setTask u.tasksCompleted v.task true v.task) = some true
      rw [setTask_self henum]
  · intro hst hlatest
    have hv2mem : reviewedRecord v st notes rBy now ∈
        (db.verifications.map fun w =>
          if w.verificationId == id then reviewedRecord v st notes rBy now else w) :=
      List.mem_map.mpr ⟨v, hvmem, by rw [if_pos hvid]⟩
    have h2eq : (updateVerification db id st notes rBy now).2 =
        { verifications := db.verifications.map fun w =>
            if w.verificationId == id then reviewedRecord v st notes rBy now else w,
          users := if st = Status.verified then
            (db.users.map fun u => if u.userAddress == v.userAddress then
              { u with tasksCompleted := setTask u.tasksCompleted v.task true } else u)
          else db.users } := by
      rw [updateVerification_eq_some hfind]
    rw [h2eq]
    have hsome := (getStatus_isSome
      { verifications := db.verifications.map fun w =>
          if w.verificationId == id then reviewedRecord v st notes rBy now else w,
        users := if st = Status.verified then
          (db.users.map fun u => if u.userAddress == v.userAddress then
            { u with tasksCompleted := setTask u.tasksCompleted v.task true } else u)
        else db.users } v.userAddress v.task).mpr
      ⟨reviewedRecord v st notes rBy now, hv2mem, rfl, rfl⟩
    obtain ⟨s, hs⟩ := Option.isSome_iff_exists.mp hsome
    obtain ⟨m, hmmem, hmaddr, hmtask, hmstatus, hmmax⟩ := getStatus_some hs
    have hsv : s = Status.verified := by
      rcases List.mem_map.mp hmmem with ⟨w, hw, hmap⟩
      by_cases hwid : (w.verificationId == id) = true
      · rw [if_pos hwid] at hmap
        rw [← hmap] at hmstatus
        rw [← hmstatus, ← hst]
        rfl
      · rw [if_neg hwid] at hmap
        exfalso
        have hwv : w ≠ v := by
          intro hwv
          rw [hwv] at hwid
          exact hwid hvid
        have hlt : w.submittedAt < v.submittedAt :=
          hlatest w hw (by rw [hmap]; exact hmaddr) (by rw [hmap]; exact hmtask) hwv
        have hle : v.submittedAt ≤ m.submittedAt :=
          hmmax (reviewedRecord v st notes rBy now) hv2mem rfl rfl
        rw [← hmap] at hle
        exact Nat.not_lt.mpr hle hlt
    rw [hs, hsv]
  · intro hst
    rw [updateVerification_eq_some hfind]
    show (if st = Status.verified then
        (db.users.map fun u => if u.userAddress == v.userAddress then
          { u with tasksCompleted := setTask u.tasksCompleted v.task true } else u)
      else db.users) = db.users
    rw [if_neg (by rw [hst]; exact (by decide))]

/-- Witness for the amended C2 on a store with a single submission. -/
theorem review_effects_witness :
    findVerification stDB1 "VER1AAAA" = some stV1 ∧
    (updateVerification stDB1 "VER1AAAA" Status.verified "ok" "admin" 2).1 =
      ReviewResult.updated ∧
    lookupTask (getVerificationStatus
      (updateVerification stDB1 "VER1AAAA" Status.verified "ok" "admin" 2).2
      stV1.userAddress) stV1.task = some Status.verified := by
  have h := review_effects stDB1 "VER1AAAA" Status.verified "ok" "admin" 2 stV1
    (by decide)
  exact ⟨by decide, h.1, h.2.2.2.1 rfl (by decide)⟩

/-- C1 counterexample: after an approved twitter verification the user's
flag is true; a further Submit for the same existing user and task
overwrites it to false, so Submit does mutate tasksCompleted. -/
theorem tasksCompleted_submit_overwrite_cex :
    (findUser stDB3 "0xA").map (fun u => u.tasksCompleted "twitter") = some true ∧
    (submitVerification stDB3 "twitter" "0xA" (some okFile) 4 4 "CCCC").1 =
      SubmitResult.submitted "VER4CCCC" ∧
    (findUser (submitVerification stDB3 "twitter" "0xA" (some okFile) 4 4 "CCCC").2
      "0xA").map (fun u => u.tasksCompleted "twitter") = some false := by
  exact ⟨by decide, by decide, by decide⟩

/-- C1 amended: a tasksCompleted flag becomes true only through a
verified review of a matching verification — Submit and registration
never raise a flag — but a successful Submit always (re)sets the
submitted (enumerated) task flag of the user to false through the
upsert, overwriting any previous value. -/
theorem tasksCompleted_transitions :
    (∀ (db : DB) (op : Op) (u2 : User) (tq : String),
      u2 ∈ (applyOp db op).users → u2.tasksCompleted tq = true →
      (∃ u ∈ db.users, u.userAddress = u2.userAddress ∧ u.tasksCompleted tq = true) ∨
      ∃ id notes rBy now v, op = Op.review id Status.verified notes rBy now ∧
        findVerification db id = some v ∧ v.userAddress = u2.userAddress ∧
        v.task = tq) ∧
    (∀ (db : DB) (t a : String) (up : Option UploadedFile) (now rand : Nat)
      (suf id : String),
      (submitVerification db t a up now rand suf).1 = SubmitResult.submitted id →
      enumTasks.contains t = true →
      (findUser (submitVerification db t a up now rand suf).2 a).map
        (fun u => u.tasksCompleted t) = some false) := by
  constructor
  · intro db op u2 tq hmem htrue
    cases op with
    | submit t a up now rand suf =>
      have hmem2 : u2 ∈ (submitVerification db t a up now rand suf).2.users := hmem
      rcases submit_users_cases db t a up now rand suf with hc | hc
      · rw [hc] at hmem2
        exact Or.inl ⟨u2, hmem2, rfl, htrue⟩
      · rw [hc] at hmem2
        exact Or.inl (upsertUser_true hmem2 htrue)
    | review id st notes rBy now =>
      have hmem2 : u2 ∈ (updateVerification db id st notes rBy now).2.users := hmem
      cases hf : findVerification db id with
      | none =>
        rw [updateVerification_eq_none hf] at hmem2
        exact Or.inl ⟨u2, hmem2, rfl, htrue⟩
      | some v =>
        rw [updateVerification_eq_some hf] at hmem2
        by_cases hst : st = Status.verified
        · rw [if_pos hst] at hmem2
          have hmem3 : u2 ∈ db.users.map fun u =>
              if u.userAddress == v.userAddress then
                { u with tasksCompleted := setTask u.tasksCompleted v.task true }
              else u := hmem2
          rcases List.mem_map.mp hmem3 with ⟨u, hu, hmap⟩
          by_cases ha : (u.userAddress == v.userAddress) = true
          · rw [if_pos ha] at hmap
            have htrue2 : setTask u.tasksCompleted v.task true tq = true := by
              rw [← hmap] at htrue
              exact htrue
            rcases setTask_eq_true htrue2 with ⟨htq, _⟩ | hold
            · right
              refine ⟨id, notes, rBy, now, v, by rw [hst], hf, ?_, htq.symm⟩
              exact (beq_iff_eq.mp ha).symm.trans (by rw [← hmap])
            · exact Or.inl ⟨u, hu, by rw [← hmap], hold⟩
          · rw [if_neg ha] at hmap
            exact Or.inl ⟨u, hu, by rw [hmap], by rw [hmap]; exact htrue⟩
        · rw [if_neg hst] at hmem2
          exact Or.inl ⟨u2, hmem2, rfl, htrue⟩
    | register a rc now =>
      have hmem2 : u2 ∈ (trackRegistration db a rc now).2.users := hmem
      cases hr : db.users.any (fun u => u.userAddress == a) with
      | true =>
        rw [trackRegistration_eq_dup hr] at hmem2
        exact Or.inl ⟨u2, hmem2, rfl, htrue⟩
      | false =>
        rw [trackRegistration_eq_ok hr] at hmem2
        rcases List.mem_append.mp hmem2 with hu | hu
        · exact Or.inl ⟨u2, hu, rfl, htrue⟩
        · rw [List.mem_singleton] at hu
          rw [hu] at htrue
          exact absurd htrue (by simp [newUserRecord, defaultTasks])
  · intro db t a up now rand suf id hok henum
    obtain ⟨_, _, f, hup, hdb⟩ := submit_ok hok
    rw [hdb]
    show ((upsertUserTaskFalse db.users a t now).find?
        (fun u => u.userAddress == a)).map (fun u => u.tasksCompleted t) = some false
    exact findUser_upsert henum

/-- Witness for the amended C1: the submit clause evaluated on a store
where the flag was previously true. -/
theorem tasksCompleted_transitions_witness :
    ((submitVerification stDB3 "twitter" "0xA" (some okFile) 4 4 "CCCC").1 =
        SubmitResult.submitted "VER4CCCC" ∧
      enumTasks.contains "twitter" = true) ∧
    (findUser (submitVerification stDB3 "twitter" "0xA" (some okFile) 4 4 "CCCC").2
      "0xA").map (fun u => u.tasksCompleted "twitter") = some false :=
  ⟨⟨by decide, by decide⟩,
   tasksCompleted_transitions.2 stDB3 "twitter" "0xA" (some okFile) 4 4 "CCCC"
     "VER4CCCC" (by decide) (by decide)⟩

/-- Witness for the amended C10 on a valid image file and an oversized
one. -/
theorem handleFiles_validation_witness :
    ((containsSub okImageFile.type "image" = true ∧
        okImageFile.size ≤ 5 * 1024 * 1024) ∧
      handleFiles resetUploadArea [okImageFile] =
        (none, { previewShown := true, submitEnabled := true })) ∧
    (containsSub pdfClientFile.type "image" = false ∧
      handleFiles resetUploadArea [pdfClientFile] =
        (some "Please upload an image file (JPG, PNG, GIF)", resetUploadArea)) :=
  ⟨⟨⟨by decide, by decide⟩,
    (handleFiles_validation resetUploadArea okImageFile).1 ⟨by decide, by decide⟩⟩,
   ⟨by decide,
    (handleFiles_validation resetUploadArea pdfClientFile).2.1 (by decide)⟩⟩

end VNetwork
